import Mathlib

/-!
# saleae-logic-libusb: `slogic.c`

A shallow embedding of `src/slogic.c` and the properties of its
natural-language specification that can be settled on it.

Conventions of the embedding.

* A C string is its sequence of characters before the terminating NUL.
* `int` fields are `Int`s; every `int` addition is wrapped to 32-bit two's
  complement by `wrapInt` (what the compiled code does on overflow).
* `size_t` is 64 bits wide; `toSizeT` is the conversion of an `int` operand
  in a mixed comparison.
* Calls into libusb append to a trace of `UsbCall`s; their results are read
  from an explicit environment.
-/

namespace Slogic

/-! ## Machine integers -/

/-- Wrap an integer to the range of a 32-bit C `int`. -/
def wrapInt (x : Int) : Int := (x + 2147483648) % 4294967296 - 2147483648

/-- Conversion of an `int` to a 64-bit `size_t`. -/
def toSizeT (x : Int) : Nat := (x % 18446744073709551616).toNat

/-! ## Sample rates (`slogic.c` lines 40-73) -/

/-- The C record `struct slogic_sample_rate`. -/
structure slogic_sample_rate where
  pause : Nat
  text : String
  samples_per_second : Nat
deriving DecidableEq, Repr

/-- The static table `sample_rates[]`. -/
def sample_rates : List slogic_sample_rate :=
  [ ⟨1, "24MHz", 24000000⟩,
    ⟨2, "16MHz", 16000000⟩,
    ⟨3, "12MHz", 12000000⟩,
    ⟨5, "8MHz", 8000000⟩,
    ⟨11, "4MHz", 4000000⟩,
    ⟨24, "2MHz", 2000000⟩,
    ⟨47, "1MHz", 1000000⟩,
    ⟨95, "500kHz", 500000⟩,
    ⟨191, "250kHz", 250000⟩,
    ⟨239, "200kHz", 200000⟩ ]

/-- The libc function `strcmp` on the characters of two C strings: zero when
both strings end together, otherwise the difference of the first pair of
characters that differ. The end of a list and a NUL character both end the
string. -/
def strcmp : List Char → List Char → Int
  | [], [] => 0
  | [], b :: _ => 0 - (b.toNat : Int)
  | a :: _, [] => (a.toNat : Int)
  | a :: as, b :: bs =>
    if a = b then (if a.toNat = 0 then 0 else strcmp as bs)
    else (a.toNat : Int) - (b.toNat : Int)

/-- A string without a NUL character: exactly the values a `const char *`
argument can denote. -/
def isCString (s : String) : Prop := ∀ c ∈ s.data, c.toNat ≠ 0

instance (s : String) : Decidable (isCString s) :=
  inferInstanceAs (Decidable (∀ c ∈ s.data, c.toNat ≠ 0))

/-- The loop of `slogic_parse_sample_rate`: the first table entry whose
`text` compares equal to `str`, or `none` for the `NULL` result. -/
def slogic_parse_sample_rate (str : String) : Option slogic_sample_rate :=
  sample_rates.find? (fun sample_rate => strcmp sample_rate.text.data str.data == 0)

/-- The ten names of the table. -/
def sample_rate_names : List String :=
  ["24MHz", "16MHz", "12MHz", "8MHz", "4MHz", "2MHz", "1MHz", "500kHz", "250kHz", "200kHz"]

/-! ## Calls into the USB transport -/

/-- One call of the program into libusb (or `sleep`), with the arguments
that the program chooses. Buffers are recorded by content or by offset. -/
inductive UsbCall where
  | libusb_init
  | libusb_set_debug (level : Int)
  | open_device (vendor_id product_id : Nat)
  | libusb_close
  | libusb_exit
  | sleep (seconds : Nat)
  | libusb_control_transfer (request_type request wValue wIndex : Nat)
      (data_start : Int) (wLength : Nat) (timeout : Nat)
  | libusb_bulk_transfer (endpoint : Nat) (data : List Nat) (length : Nat) (timeout : Nat)
  | libusb_alloc_transfer
  | libusb_submit_transfer (slot : Nat)
  | libusb_handle_events
  | libusb_cancel_transfer (slot : Nat)
  | libusb_free_transfer (slot : Nat)
deriving DecidableEq, Repr

def COMMAND_OUT_ENDPOINT : Nat := 0x01
def COMMAND_IN_ENDPOINT : Nat := 0x81
def STREAMING_DATA_IN_ENDPOINT : Nat := 0x82
def USB_VENDOR_ID : Nat := 0x0925
def USB_PRODUCT_ID : Nat := 0x3881
def DEFAULT_N_TRANSFER_BUFFERS : Nat := 4
def DEFAULT_TRANSFER_BUFFER_SIZE : Nat := 4 * 1024

/-! ## Firmware upload and open (`slogic.c` lines 79-146) -/

/-- The declarations of `firmware/firmware.h` that `slogic_upload_firmware`
uses and that are not part of the source at hand: the command table, the
result of `slogic_firm_cmds_size()` and the three `INDEX_` constants. -/
structure Firmware where
  slogic_firm_cmds : List Nat
  slogic_firm_cmds_size : Nat
  INDEX_CMD_REQUEST : Nat
  INDEX_CMD_VALUE : Nat
  INDEX_PAYLOAD_SIZE : Nat

/-- Read of `current[i]` where `current` points at element `current` of
the command table. -/
def Firmware.at (fw : Firmware) (current i : Nat) : Nat :=
  fw.slogic_firm_cmds.getD (current + i) 0

/-- The value `cmd_count`: table size in bytes, by `sizeof(unsigned int)`,
by `cmd_size`. -/
def cmd_count (fw : Firmware) : Nat := fw.slogic_firm_cmds_size / 4 / 3

/-- The `for` loop of `slogic_upload_firmware`, with `remaining` iterations
to go: one control transfer, then `data_start += current[2]` and
`current += cmd_size`. The `uint16_t` parameters truncate their argument. -/
def upload_loop (fw : Firmware) : Nat → Nat → Int → List UsbCall
  | 0, _, _ => []
  | remaining + 1, current, data_start =>
    UsbCall.libusb_control_transfer 0x40 0xA0
        (fw.at current fw.INDEX_CMD_REQUEST % 65536)
        (fw.at current fw.INDEX_CMD_VALUE % 65536)
        data_start
        (fw.at current fw.INDEX_PAYLOAD_SIZE % 65536) 4
      :: upload_loop fw remaining (current + 3) (wrapInt (data_start + (fw.at current 2 : Int)))

/-- The calls of `slogic_upload_firmware`. -/
def slogic_upload_firmware (fw : Firmware) : List UsbCall :=
  upload_loop fw (cmd_count fw) 0 0 ++ [UsbCall.sleep 1]

/-- What the transport answers during `slogic_open`. -/
structure OpenEnv where
  device_found : Bool
  probe_ret : Int

/-- The call of `slogic_is_firmware_uploaded` and its result `ret == 0`. -/
def slogic_is_firmware_uploaded (env : OpenEnv) : Bool × List UsbCall :=
  (env.probe_ret == 0, [UsbCall.libusb_bulk_transfer COMMAND_OUT_ENDPOINT [0x05] 1 100])

/-- The C record `struct slogic_handle` without its two libusb pointers. -/
structure slogic_handle where
  transfer_buffer_size : Nat
  n_transfer_buffers : Nat
deriving DecidableEq, Repr

/-- The function `slogic_open`: the handle, or `none` for `NULL`, and the
calls made. -/
def slogic_open (fw : Firmware) (env : OpenEnv) : Option slogic_handle × List UsbCall :=
  let handle : slogic_handle :=
    { transfer_buffer_size := DEFAULT_TRANSFER_BUFFER_SIZE,
      n_transfer_buffers := DEFAULT_N_TRANSFER_BUFFERS }
  let calls := [UsbCall.libusb_init, UsbCall.libusb_set_debug 3,
                UsbCall.open_device USB_VENDOR_ID USB_PRODUCT_ID]
  if !env.device_found then (none, calls)
  else
    let probe := slogic_is_firmware_uploaded env
    if !probe.1 then
      (none, calls ++ probe.2 ++ slogic_upload_firmware fw
              ++ [UsbCall.libusb_close, UsbCall.libusb_exit])
    else (some handle, calls ++ probe.2)

/-- Field `j` of row `k` of the command table. -/
def fw_row (fw : Firmware) (k j : Nat) : Nat := fw.at (3 * k) j

/-- Sum of the payload lengths (third field) of the rows before row `k`. -/
def payload_offset (fw : Firmware) : Nat → Nat
  | 0 => 0
  | k + 1 => payload_offset fw k + fw_row fw k 2

/-- The control write that the command table prescribes for row `k`. -/
def row_write (fw : Firmware) (k : Nat) : UsbCall :=
  UsbCall.libusb_control_transfer 0x40 0xA0
    (fw_row fw k fw.INDEX_CMD_REQUEST % 65536) (fw_row fw k fw.INDEX_CMD_VALUE % 65536)
    (payload_offset fw k) (fw_row fw k 2) 4

/-! ## Recording (`slogic.c` lines 200-323) -/

/-- The C record `struct stransfer`; its two pointers are the position in
the `transfers` array. -/
structure stransfer where
  seq : Int
deriving DecidableEq, Repr

/-- The C record `struct slogic_recording`. `samples` is the content of the
caller's buffer. -/
structure slogic_recording where
  samples : List Nat
  recording_size : Nat
  sample_count : Int
  transfer_counter : Int
  transfers : List stransfer
  n_transfer_buffers : Nat
  failed : Bool
deriving DecidableEq, Repr

/-- The function `allocate_recording`. The fresh `transfers` array is
modelled as holding zeros. -/
def allocate_recording (handle : slogic_handle) (samples : List Nat) (recording_size : Nat) :
    slogic_recording :=
  { samples := samples,
    recording_size := recording_size,
    transfer_counter := 0,
    sample_count := 0,
    n_transfer_buffers := handle.n_transfer_buffers,
    transfers := List.replicate handle.n_transfer_buffers ⟨0⟩,
    failed := false }

/-- Program and transport state during a capture: the two file-scope
counters `tcounter` and `timeout_counter`, the recording, the slots whose
request is with the transport, and the calls made so far. -/
structure State where
  tcounter : Int
  timeout_counter : Int
  recording : slogic_recording
  outstanding : List Nat
  calls : List UsbCall
deriving DecidableEq, Repr

/-- A completed request as the transport hands it to the handler: the slot
it belongs to (`user_data`), the bytes delivered into the slot's buffer
(`actual_length` of them), and the result of the `libusb_submit_transfer`
that the handler will issue. -/
structure Completion where
  slot : Nat
  data : List Nat
  submit_ret : Int
deriving DecidableEq, Repr

/-- The field `actual_length` of a completed request. -/
def Completion.actual_length (c : Completion) : Int := (c.data.length : Int)

/-- The function `slogic_read_samples_callback` (the `#if 0` regions are
not compiled). -/
def slogic_read_samples_callback (s : State) (c : Completion) : State :=
  let r := s.recording
  -- stransfer->recording->transfer_counter++;
  let r1 := { r with transfer_counter := wrapInt (r.transfer_counter + 1) }
  -- if (transfer->actual_length == 0) { if (timeout_counter++ > 10) failed = 1; }
  let timeout_counter :=
    if c.actual_length = 0 then wrapInt (s.timeout_counter + 1) else s.timeout_counter
  let r2 :=
    if c.actual_length = 0 ∧ s.timeout_counter > 10 then { r1 with failed := true } else r1
  -- stransfer->recording->sample_count += transfer->actual_length;
  let r3 := { r2 with sample_count := wrapInt (r2.sample_count + c.actual_length) }
  -- stransfer->seq = tcounter++;
  let r4 := { r3 with transfers := r3.transfers.set c.slot ⟨s.tcounter⟩ }
  -- ret = libusb_submit_transfer(stransfer->transfer);
  { tcounter := wrapInt (s.tcounter + 1),
    timeout_counter := timeout_counter,
    recording := r4,
    outstanding := if c.submit_ret = 0 then c.slot :: s.outstanding else s.outstanding,
    calls := s.calls ++ [UsbCall.libusb_submit_transfer c.slot] }

/-- A run of the handler over a sequence of completions, in order. -/
def run_callbacks (s : State) (cs : List Completion) : State :=
  cs.foldl slogic_read_samples_callback s

/-! ## Capture (`slogic.c` lines 329-418) -/

/-- What the transport answers during one `slogic_read_samples`: the
result of each `libusb_alloc_transfer` and of each initial
`libusb_submit_transfer` (by loop counter), the result of the command
write, and for each `libusb_handle_events` call in turn the completions it
dispatches and its return value. -/
structure CaptureEnv where
  alloc_ok : Nat → Bool
  submit_ret : Nat → Int
  bulk_ret : Int
  transferred : Int
  events : List (List Completion × Int)

/-- The transport delivering one completion: only a slot whose request is
outstanding can complete; its request leaves the transport and the handler
runs. -/
def dispatch (s : State) (c : Completion) : State :=
  if c.slot ∈ s.outstanding then
    slogic_read_samples_callback { s with outstanding := s.outstanding.filter (· ≠ c.slot) } c
  else s

/-- One call of `libusb_handle_events`: the batch of completions is
dispatched, then the call returns the given code. -/
def libusb_handle_events (s : State) (batch : List Completion × Int) : State × Int :=
  (batch.1.foldl dispatch { s with calls := s.calls ++ [UsbCall.libusb_handle_events] },
   batch.2)

/-- The condition of the `while` loop:
`sample_count < recording_size && !failed`, the `int` converted to
`size_t`. -/
def loop_condition (r : slogic_recording) : Bool :=
  toSizeT r.sample_count < r.recording_size && !r.failed

/-- The first `for` loop of `slogic_read_samples` over the remaining
counters: `some ret` in the second component is an early `return ret`. -/
def preallocate_loop (env : CaptureEnv) : List Nat → State → State × Option Int
  | [], s => (s, none)
  | counter :: rest, s =>
    let s1 := { s with calls := s.calls ++ [UsbCall.libusb_alloc_transfer] }
    if env.alloc_ok counter then preallocate_loop env rest s1 else (s1, some (-1))

/-- The second `for` loop of `slogic_read_samples`: the initial submission
of every slot. -/
def submit_loop (env : CaptureEnv) : List Nat → State → State × Option Int
  | [], s => (s, none)
  | counter :: rest, s =>
    let r := s.recording
    let s1 : State :=
      { s with
        recording := { r with transfers := r.transfers.set counter ⟨s.tcounter⟩ },
        tcounter := wrapInt (s.tcounter + 1),
        calls := s.calls ++ [UsbCall.libusb_submit_transfer counter] }
    if env.submit_ret counter ≠ 0 then (s1, some (env.submit_ret counter))
    else submit_loop env rest { s1 with outstanding := counter :: s1.outstanding }

/-- The `while` loop of `slogic_read_samples`. `none` stands for a loop
that is still waiting when the scripted transport has nothing more to
deliver. -/
def capture_loop : State → List (List Completion × Int) → Option State
  | s, [] => if loop_condition s.recording then none else some s
  | s, batch :: rest =>
    if loop_condition s.recording then
      let step := libusb_handle_events s batch
      if step.2 ≠ 0 then some step.1 else capture_loop step.1 rest
    else some s

/-- The last `for` loop of `slogic_read_samples`: cancel and free every
slot's request. A cancelled request is no longer with the transport. -/
def teardown_loop : List Nat → State → State
  | [], s => s
  | counter :: rest, s =>
    teardown_loop rest
      { s with
        outstanding := s.outstanding.filter (· ≠ counter),
        calls := s.calls ++ [UsbCall.libusb_cancel_transfer counter,
                             UsbCall.libusb_free_transfer counter] }

/-- How a call of `slogic_read_samples` ends. -/
inductive Exit where
  | returned (ret : Int)
  | assert_failed
deriving DecidableEq, Repr

/-- Result of `slogic_read_samples`: how it ended and the state at that
point (the recording as it is when the totals are printed). -/
structure Run where
  exit : Exit
  state : State
deriving DecidableEq, Repr

/-- The function `slogic_read_samples`, started with the given values of
the file-scope counters. -/
def slogic_read_samples (handle : slogic_handle) (sample_rate : slogic_sample_rate)
    (samples : List Nat) (recording_size : Nat) (tcounter timeout_counter : Int)
    (env : CaptureEnv) : Option Run :=
  let recording := allocate_recording handle samples recording_size
  let s0 : State :=
    { tcounter := tcounter, timeout_counter := timeout_counter, recording := recording,
      outstanding := [], calls := [] }
  let counters := List.range recording.n_transfer_buffers
  match preallocate_loop env counters s0 with
  | (s1, some ret) => some ⟨Exit.returned ret, s1⟩
  | (s1, none) =>
    match submit_loop env counters s1 with
    | (s2, some ret) => some ⟨Exit.returned ret, s2⟩
    | (s2, none) =>
      let s3 := { s2 with calls := s2.calls ++
        [UsbCall.libusb_bulk_transfer COMMAND_OUT_ENDPOINT [0x01, sample_rate.pause] 2 100] }
      if env.bulk_ret ≠ 0 then some ⟨Exit.returned env.bulk_ret, s3⟩
      else if env.transferred ≠ 2 then some ⟨Exit.assert_failed, s3⟩
      else
        match capture_loop s3 env.events with
        | none => none
        | some s4 => some ⟨Exit.returned 0, teardown_loop counters s4⟩

/-! ## Vocabulary of the properties -/

/-- Total number of bytes delivered by a sequence of completions. -/
def total_length : List Completion → Nat
  | [] => 0
  | c :: cs => c.data.length + total_length cs

/-- The delivered payloads, concatenated in completion order. -/
def payloads (cs : List Completion) : List Nat := cs.flatMap (·.data)

/-- Number of zero-byte completions in a sequence. -/
def empty_count : List Completion → Nat
  | [] => 0
  | c :: cs => (if c.data.length = 0 then 1 else 0) + empty_count cs

/-- Length of the run of zero-byte completions at the head of a sequence. -/
def leading_empty_run : List Completion → Nat
  | [] => 0
  | c :: cs => if c.data.length = 0 then leading_empty_run cs + 1 else 0

/-- Length of the longest run of back-to-back zero-byte completions. -/
def longest_empty_run : List Completion → Nat
  | [] => 0
  | c :: cs => max (leading_empty_run (c :: cs)) (longest_empty_run cs)

/-- The state of a capture right after `allocate_recording`, before any
request is submitted. -/
def fresh_state (handle : slogic_handle) (samples : List Nat) (recording_size : Nat)
    (tcounter timeout_counter : Int) : State :=
  { tcounter := tcounter, timeout_counter := timeout_counter,
    recording := allocate_recording handle samples recording_size,
    outstanding := [], calls := [] }

/-- A completion of `slot` that delivers no byte and is resubmitted. -/
def empty_completion (slot : Nat) : Completion := ⟨slot, [], 0⟩

/-- A stalled device: `n` zero-byte completions, the two slots of a pool of
depth 2 taking turns. -/
def stall_script (n : Nat) : List Completion :=
  (List.range n).map (fun i => empty_completion (i % 2))

/-- An idle but live device: `n` times a zero-byte completion of slot 0
followed by a one-byte completion of slot 1. -/
def idle_script : Nat → List Completion
  | 0 => []
  | n + 1 => empty_completion 0 :: ⟨1, [7], 0⟩ :: idle_script n

/-- One completion per slot of a pool of depth `p`, each delivering `b`
zero bytes and resubmitted. -/
def full_round (p b : Nat) : List Completion :=
  (List.range p).map (fun i => ⟨i, List.replicate b 0, 0⟩)

/-- A command table of two rows (payloads of 2 and 3 bytes) and one stray
trailing element, with the payload length as third field. -/
def demo_firmware : Firmware :=
  { slogic_firm_cmds := [0x10, 0, 2, 0x20, 1, 3, 0x30],
    slogic_firm_cmds_size := 28,
    INDEX_CMD_REQUEST := 0, INDEX_CMD_VALUE := 1, INDEX_PAYLOAD_SIZE := 2 }

/-- A transport on which every allocation, submission and the command write
succeed. -/
def ok_env (events : List (List Completion × Int)) : CaptureEnv :=
  { alloc_ok := fun _ => true, submit_ret := fun _ => 0, bulk_ret := 0, transferred := 2,
    events := events }

/-- The state in which `slogic_read_samples` enters its `while` loop when
nothing failed before: all slots submitted, the command written. -/
def streaming_state (handle : slogic_handle) (sample_rate : slogic_sample_rate)
    (samples : List Nat) (recording_size : Nat) (tcounter timeout_counter : Int) : State :=
  let s0 := fresh_state handle samples recording_size tcounter timeout_counter
  let counters := List.range handle.n_transfer_buffers
  let s2 := (submit_loop (ok_env []) counters (preallocate_loop (ok_env []) counters s0).1).1
  { s2 with calls := s2.calls ++
      [UsbCall.libusb_bulk_transfer COMMAND_OUT_ENDPOINT [0x01, sample_rate.pause] 2 100] }

/-- Two states that differ at most in the set of outstanding requests. -/
def same_program (a b : State) : Prop :=
  a.tcounter = b.tcounter ∧ a.timeout_counter = b.timeout_counter ∧
  a.recording = b.recording ∧ a.calls = b.calls

/-- The batches of a transport script, concatenated: all completions in the
order of their delivery. -/
def completions_of (evs : List (List Completion × Int)) : List Completion :=
  evs.flatMap (·.1)

/-- What a finished capture shows: how the call ended, `sample_count`,
`failed`, `transfer_counter`, the loop condition and the requests still
outstanding. -/
def Run.summary (run : Run) : Exit × Int × Bool × Int × Bool × List Nat :=
  (run.exit, run.state.recording.sample_count, run.state.recording.failed,
   run.state.recording.transfer_counter, loop_condition run.state.recording,
   run.state.outstanding)

/-- Whether the handler, run on completion `c` in state `s`, hands the
completing slot to the transport again. -/
def resubmits (s : State) (c : Completion) : Prop :=
  UsbCall.libusb_submit_transfer c.slot ∈
    (slogic_read_samples_callback s c).calls.drop s.calls.length

instance (s : State) (c : Completion) : Decidable (resubmits s c) :=
  inferInstanceAs (Decidable (_ ∈ _))

/-! ## Lemmas on `strcmp` -/

theorem char_toNat_inj {a b : Char} (h : a.toNat = b.toNat) : a = b := by
  rw [← Char.ofNat_toNat a, ← Char.ofNat_toNat b, h]

theorem strcmp_eq_zero (a b : List Char) (ha : ∀ c ∈ a, c.toNat ≠ 0)
    (hb : ∀ c ∈ b, c.toNat ≠ 0) (h : strcmp a b = 0) : a = b := by
  induction a generalizing b with
  | nil =>
    cases b with
    | nil => rfl
    | cons y ys =>
      simp only [strcmp] at h
      have := hb y (by simp)
      omega
  | cons x xs ih =>
    cases b with
    | nil =>
      simp only [strcmp] at h
      have := ha x (by simp)
      omega
    | cons y ys =>
      simp only [strcmp] at h
      by_cases hxy : x = y
      · subst hxy
        have hx := ha x (by simp)
        simp only [if_true, hx, if_false] at h
        rw [ih ys (fun c hc => ha c (by simp [hc])) (fun c hc => hb c (by simp [hc])) h]
      · simp only [hxy, if_false] at h
        exact absurd (char_toNat_inj (by omega)) hxy

theorem parse_none_of_not_mem (str : String) (hs : isCString str)
    (h : str ∉ sample_rate_names) : slogic_parse_sample_rate str = none := by
  unfold slogic_parse_sample_rate
  rw [List.find?_eq_none]
  intro r hr hz
  have hz0 : strcmp r.text.data str.data = 0 := by simpa using hz
  have hr0 : ∀ c ∈ r.text.data, c.toNat ≠ 0 := by
    simp only [sample_rates, List.mem_cons, List.mem_singleton, List.not_mem_nil, or_false] at hr
    rcases hr with rfl | rfl | rfl | rfl | rfl | rfl | rfl | rfl | rfl | rfl <;> decide
  have hd := strcmp_eq_zero _ _ hr0 hs hz0
  have he : r.text = str := by
    cases hrt : r.text; cases str; simp_all
  apply h
  rw [← he]
  simp only [sample_rates, List.mem_cons, List.mem_singleton, List.not_mem_nil, or_false] at hr
  rcases hr with rfl | rfl | rfl | rfl | rfl | rfl | rfl | rfl | rfl | rfl <;> decide

/-! ## Lemmas on the completion handler -/

theorem wrapInt_of_range {x : Int} (h0 : 0 ≤ x) (h1 : x < 2147483648) : wrapInt x = x := by
  unfold wrapInt
  omega

theorem cb_samples (s : State) (c : Completion) :
    (slogic_read_samples_callback s c).recording.samples = s.recording.samples := by
  unfold slogic_read_samples_callback
  dsimp only
  split <;> rfl

theorem cb_recording_size (s : State) (c : Completion) :
    (slogic_read_samples_callback s c).recording.recording_size = s.recording.recording_size := by
  unfold slogic_read_samples_callback
  dsimp only
  split <;> rfl

theorem cb_sample_count (s : State) (c : Completion) :
    (slogic_read_samples_callback s c).recording.sample_count
      = wrapInt (s.recording.sample_count + (c.data.length : Int)) := by
  unfold slogic_read_samples_callback Completion.actual_length
  dsimp only
  split <;> rfl

theorem cb_transfer_counter (s : State) (c : Completion) :
    (slogic_read_samples_callback s c).recording.transfer_counter
      = wrapInt (s.recording.transfer_counter + 1) := by
  unfold slogic_read_samples_callback
  dsimp only
  split <;> rfl

theorem cb_timeout_counter (s : State) (c : Completion) :
    (slogic_read_samples_callback s c).timeout_counter
      = if c.data.length = 0 then wrapInt (s.timeout_counter + 1) else s.timeout_counter := by
  unfold slogic_read_samples_callback Completion.actual_length
  dsimp only
  by_cases h : c.data.length = 0 <;> simp [h]

theorem cb_failed (s : State) (c : Completion) :
    (slogic_read_samples_callback s c).recording.failed
      = (s.recording.failed || decide (c.data.length = 0 ∧ s.timeout_counter > 10)) := by
  unfold slogic_read_samples_callback Completion.actual_length
  dsimp only
  by_cases h : c.data.length = 0 <;> by_cases h2 : s.timeout_counter > 10 <;> simp [h, h2]

theorem cb_calls (s : State) (c : Completion) :
    (slogic_read_samples_callback s c).calls
      = s.calls ++ [UsbCall.libusb_submit_transfer c.slot] := rfl

theorem run_callbacks_cons (s : State) (c : Completion) (cs : List Completion) :
    run_callbacks s (c :: cs) = run_callbacks (slogic_read_samples_callback s c) cs := rfl

theorem run_samples (cs : List Completion) (s : State) :
    (run_callbacks s cs).recording.samples = s.recording.samples := by
  induction cs generalizing s with
  | nil => rfl
  | cons c cs ih => rw [run_callbacks_cons, ih, cb_samples]

theorem run_sample_count (cs : List Completion) (s : State)
    (h0 : 0 ≤ s.recording.sample_count)
    (h1 : s.recording.sample_count + (total_length cs : Int) < 2147483648) :
    (run_callbacks s cs).recording.sample_count
      = s.recording.sample_count + (total_length cs : Int) := by
  induction cs generalizing s with
  | nil => simp [run_callbacks, total_length]
  | cons c cs ih =>
    simp only [total_length, Nat.cast_add] at h1
    have hc : (slogic_read_samples_callback s c).recording.sample_count
        = s.recording.sample_count + (c.data.length : Int) := by
      rw [cb_sample_count]
      exact wrapInt_of_range (by omega) (by omega)
    rw [run_callbacks_cons, ih _ (by omega) (by omega), hc]
    simp only [total_length, Nat.cast_add]
    omega

theorem run_transfer_counter (cs : List Completion) (s : State)
    (h0 : 0 ≤ s.recording.transfer_counter)
    (h1 : s.recording.transfer_counter + (cs.length : Int) < 2147483648) :
    (run_callbacks s cs).recording.transfer_counter
      = s.recording.transfer_counter + (cs.length : Int) := by
  induction cs generalizing s with
  | nil => simp [run_callbacks]
  | cons c cs ih =>
    simp only [List.length_cons, Nat.cast_add, Nat.cast_one] at h1
    have hc : (slogic_read_samples_callback s c).recording.transfer_counter
        = s.recording.transfer_counter + 1 := by
      rw [cb_transfer_counter]
      exact wrapInt_of_range (by omega) (by omega)
    rw [run_callbacks_cons, ih _ (by omega) (by omega), hc]
    simp only [List.length_cons, Nat.cast_add, Nat.cast_one]
    omega

theorem total_length_payloads (cs : List Completion) :
    (payloads cs).length = total_length cs := by
  induction cs with
  | nil => rfl
  | cons c cs ih =>
    have : payloads (c :: cs) = c.data ++ payloads cs := by simp [payloads]
    rw [this, List.length_append, ih, total_length]

theorem total_length_take_le (cs : List Completion) (n : Nat) :
    total_length (cs.take n) ≤ total_length cs := by
  induction cs generalizing n with
  | nil => simp [total_length]
  | cons c cs ih =>
    cases n with
    | zero => simp [total_length]
    | succ n =>
      simp only [List.take_succ_cons, total_length]
      have := ih n
      omega

theorem total_length_le_mul (cs : List Completion) (b : Nat)
    (hb : ∀ c ∈ cs, c.data.length ≤ b) : total_length cs ≤ cs.length * b := by
  induction cs with
  | nil => simp [total_length]
  | cons c cs ih =>
    have h1 := hb c (by simp)
    have h2 := ih (fun d hd => hb d (by simp [hd]))
    simp only [total_length, List.length_cons]
    rw [Nat.add_mul, Nat.one_mul]
    omega

theorem run_failed_sticky (cs : List Completion) (s : State)
    (hf : s.recording.failed = true) : (run_callbacks s cs).recording.failed = true := by
  induction cs generalizing s with
  | nil => exact hf
  | cons c cs ih =>
    rw [run_callbacks_cons]
    apply ih
    rw [cb_failed, hf]
    rfl

theorem run_timeout_counter (cs : List Completion) (s : State) (h0 : 0 ≤ s.timeout_counter)
    (h1 : s.timeout_counter + (empty_count cs : Int) < 2147483648) :
    (run_callbacks s cs).timeout_counter = s.timeout_counter + (empty_count cs : Int) := by
  induction cs generalizing s with
  | nil => simp [run_callbacks, empty_count]
  | cons c cs ih =>
    rw [run_callbacks_cons]
    by_cases hc : c.data.length = 0
    · simp only [empty_count, hc, if_true, Nat.cast_add, Nat.cast_one] at h1 ⊢
      have ht : (slogic_read_samples_callback s c).timeout_counter = s.timeout_counter + 1 := by
        rw [cb_timeout_counter, if_pos hc]
        exact wrapInt_of_range (by omega) (by omega)
      rw [ih _ (by omega) (by omega), ht]
      omega
    · simp only [empty_count, hc, if_false, Nat.zero_add] at h1 ⊢
      have ht : (slogic_read_samples_callback s c).timeout_counter = s.timeout_counter := by
        rw [cb_timeout_counter, if_neg hc]
      rw [ih _ (by omega) (by omega), ht]

/-- Stall detection in general: starting from `failed = false` the flag is
set exactly when some zero-byte completion finds the file-scope counter
above ten, that is when the counter's start value plus the number of
zero-byte completions reaches twelve. -/
theorem run_failed_iff (cs : List Completion) (s : State)
    (hf : s.recording.failed = false) (h0 : 0 ≤ s.timeout_counter)
    (h1 : s.timeout_counter + (empty_count cs : Int) < 2147483648) :
    (run_callbacks s cs).recording.failed = true
      ↔ (1 ≤ empty_count cs ∧ 12 ≤ s.timeout_counter + (empty_count cs : Int)) := by
  induction cs generalizing s with
  | nil => simp [run_callbacks, empty_count, hf]
  | cons c cs ih =>
    rw [run_callbacks_cons]
    by_cases hc : c.data.length = 0
    · simp only [empty_count, hc, if_true, Nat.cast_add, Nat.cast_one] at h1 ⊢
      have ht : (slogic_read_samples_callback s c).timeout_counter = s.timeout_counter + 1 := by
        rw [cb_timeout_counter, if_pos hc]
        exact wrapInt_of_range (by omega) (by omega)
      by_cases h10 : s.timeout_counter > 10
      · have hf1 : (slogic_read_samples_callback s c).recording.failed = true := by
          rw [cb_failed]
          simp [hc, h10]
        rw [run_failed_sticky cs _ hf1]
        constructor
        · intro _
          omega
        · intro _
          rfl
      · have hf1 : (slogic_read_samples_callback s c).recording.failed = false := by
          rw [cb_failed]
          simp [hf, h10]
        rw [ih _ hf1 (by omega) (by omega), ht]
        omega
    · simp only [empty_count, hc, if_false, Nat.zero_add] at h1 ⊢
      have ht : (slogic_read_samples_callback s c).timeout_counter = s.timeout_counter := by
        rw [cb_timeout_counter, if_neg hc]
      have hf1 : (slogic_read_samples_callback s c).recording.failed = false := by
        rw [cb_failed]
        simp [hf, hc]
      rw [ih _ hf1 (by omega) (by omega), ht]

theorem empty_count_of_all_empty (cs : List Completion) (h : ∀ c ∈ cs, c.data = []) :
    empty_count cs = cs.length := by
  induction cs with
  | nil => rfl
  | cons c cs ih =>
    have hc : c.data.length = 0 := by rw [h c (by simp)]; rfl
    simp only [empty_count, hc, if_true, List.length_cons]
    rw [ih (fun d hd => h d (by simp [hd]))]
    omega

theorem total_length_of_all_empty (cs : List Completion) (h : ∀ c ∈ cs, c.data = []) :
    total_length cs = 0 := by
  induction cs with
  | nil => rfl
  | cons c cs ih =>
    have hc : c.data.length = 0 := by rw [h c (by simp)]; rfl
    simp only [total_length, hc, Nat.zero_add]
    exact ih (fun d hd => h d (by simp [hd]))

theorem run_failed_of_no_empty (cs : List Completion) (s : State)
    (hf : s.recording.failed = false) (hne : ∀ c ∈ cs, c.data.length ≠ 0) :
    (run_callbacks s cs).recording.failed = false := by
  induction cs generalizing s with
  | nil => exact hf
  | cons c cs ih =>
    rw [run_callbacks_cons]
    apply ih _ _ (fun d hd => hne d (by simp [hd]))
    rw [cb_failed]
    simp [hf, hne c (by simp)]

theorem run_recording_size (cs : List Completion) (s : State) :
    (run_callbacks s cs).recording.recording_size = s.recording.recording_size := by
  induction cs generalizing s with
  | nil => rfl
  | cons c cs ih => rw [run_callbacks_cons, ih, cb_recording_size]

theorem total_length_of_uniform (cs : List Completion) (b : Nat)
    (h : ∀ c ∈ cs, c.data.length = b) : total_length cs = cs.length * b := by
  induction cs with
  | nil => simp [total_length]
  | cons c cs ih =>
    simp only [total_length, List.length_cons]
    rw [h c (by simp), ih (fun d hd => h d (by simp [hd])), Nat.add_mul, Nat.one_mul]
    omega

theorem full_round_length (p b : Nat) : (full_round p b).length = p := by
  simp [full_round]

theorem full_round_data (p b : Nat) : ∀ c ∈ full_round p b, c.data.length = b := by
  intro c hc
  simp only [full_round, List.mem_map] at hc
  obtain ⟨i, _, rfl⟩ := hc
  exact List.length_replicate b 0

/-! ## Lemmas on the firmware upload -/

theorem payload_offset_mono (fw : Firmware) (k n : Nat) :
    payload_offset fw k ≤ payload_offset fw (k + n) := by
  induction n with
  | zero => exact Nat.le_refl _
  | succ n ih =>
    have : payload_offset fw (k + (n + 1)) = payload_offset fw (k + n) + fw_row fw (k + n) 2 := rfl
    omega

theorem upload_loop_eq (fw : Firmware) (hidx : fw.INDEX_PAYLOAD_SIZE = 2) (n k : Nat)
    (hlen : ∀ j, j < k + n → fw_row fw j 2 < 65536)
    (hsum : payload_offset fw (k + n) < 2147483648) :
    upload_loop fw n (3 * k) (payload_offset fw k : Int)
      = (List.range' k n).map (row_write fw) := by
  induction n generalizing k with
  | zero => rfl
  | succ n ih =>
    have hk : fw_row fw k 2 < 65536 := hlen k (by omega)
    have hoff : payload_offset fw (k + 1) ≤ payload_offset fw (k + 1 + n) :=
      payload_offset_mono fw (k + 1) n
    have hstep : payload_offset fw (k + 1) = payload_offset fw k + fw_row fw k 2 := rfl
    have hkn : k + 1 + n = k + (n + 1) := by omega
    rw [hkn] at hoff
    have hr : fw.at (3 * k) 2 = fw_row fw k 2 := rfl
    have hnext : wrapInt ((payload_offset fw k : Int) + (fw.at (3 * k) 2 : Int))
        = (payload_offset fw (k + 1) : Int) := by
      rw [hr, hstep, wrapInt_of_range (by omega) (by omega)]
      push_cast
      rfl
    have h3 : 3 * k + 3 = 3 * (k + 1) := by omega
    have hrest := ih (k + 1) (fun j hj => hlen j (by omega)) (by rw [hkn]; exact hsum)
    have hhead : UsbCall.libusb_control_transfer 0x40 0xA0
          (fw.at (3 * k) fw.INDEX_CMD_REQUEST % 65536)
          (fw.at (3 * k) fw.INDEX_CMD_VALUE % 65536)
          (payload_offset fw k : Int)
          (fw.at (3 * k) fw.INDEX_PAYLOAD_SIZE % 65536) 4
        = row_write fw k := by
      unfold row_write
      rw [hidx, hr, Nat.mod_eq_of_lt hk]
      rfl
    rw [upload_loop, hnext, h3, hrest, hhead, List.range'_succ, List.map_cons]

/-! ## Lemmas on the capture loop and the teardown -/

/-- Every outstanding request belongs to a slot of the pool. -/
theorem cb_outstanding_lt (n : Nat) (s : State) (c : Completion) (hc : c.slot < n)
    (h : ∀ i ∈ s.outstanding, i < n) :
    ∀ i ∈ (slogic_read_samples_callback s c).outstanding, i < n := by
  intro i hi
  have ho : (slogic_read_samples_callback s c).outstanding
      = if c.submit_ret = 0 then c.slot :: s.outstanding else s.outstanding := rfl
  rw [ho] at hi
  split at hi
  · rcases List.mem_cons.mp hi with rfl | hmem
    · exact hc
    · exact h i hmem
  · exact h i hi

theorem dispatch_outstanding_lt (n : Nat) (s : State) (c : Completion)
    (h : ∀ i ∈ s.outstanding, i < n) : ∀ i ∈ (dispatch s c).outstanding, i < n := by
  unfold dispatch
  split
  · next hmem =>
    apply cb_outstanding_lt n _ c (h _ hmem)
    intro i hi
    exact h i (List.mem_of_mem_filter hi)
  · exact h

theorem foldl_dispatch_outstanding_lt (n : Nat) (cs : List Completion) (s : State)
    (h : ∀ i ∈ s.outstanding, i < n) :
    ∀ i ∈ (cs.foldl dispatch s).outstanding, i < n := by
  induction cs generalizing s with
  | nil => exact h
  | cons c cs ih => exact ih _ (dispatch_outstanding_lt n s c h)

theorem capture_loop_outstanding_lt (n : Nat) (evs : List (List Completion × Int))
    (s t : State) (h : ∀ i ∈ s.outstanding, i < n) (hrun : capture_loop s evs = some t) :
    ∀ i ∈ t.outstanding, i < n := by
  induction evs generalizing s with
  | nil =>
    simp only [capture_loop] at hrun
    split at hrun
    · exact absurd hrun (by simp)
    · cases hrun; exact h
  | cons batch rest ih =>
    simp only [capture_loop] at hrun
    have hstep : ∀ i ∈ (libusb_handle_events s batch).1.outstanding, i < n :=
      foldl_dispatch_outstanding_lt n batch.1 _ h
    split at hrun
    · split at hrun
      · cases hrun; exact hstep
      · exact ih _ hstep hrun
    · cases hrun; exact h

theorem submit_loop_outstanding_lt (env : CaptureEnv) (n : Nat) (counters : List Nat)
    (s : State) (hc : ∀ i ∈ counters, i < n) (h : ∀ i ∈ s.outstanding, i < n) :
    ∀ i ∈ (submit_loop env counters s).1.outstanding, i < n := by
  induction counters generalizing s with
  | nil => exact h
  | cons counter rest ih =>
    simp only [submit_loop]
    split
    · exact h
    · apply ih _ (fun i hi => hc i (by simp [hi]))
      intro i hi
      rcases List.mem_cons.mp hi with rfl | hmem
      · exact hc _ (by simp)
      · exact h i hmem

theorem preallocate_loop_outstanding (env : CaptureEnv) (counters : List Nat) (s : State) :
    (preallocate_loop env counters s).1.outstanding = s.outstanding := by
  induction counters generalizing s with
  | nil => rfl
  | cons counter rest ih =>
    simp only [preallocate_loop]
    split
    · rw [ih]
    · rfl

theorem teardown_loop_outstanding (counters : List Nat) (s : State) :
    (teardown_loop counters s).outstanding = s.outstanding.filter (fun i => i ∉ counters) := by
  induction counters generalizing s with
  | nil => simp [teardown_loop]
  | cons counter rest ih =>
    simp only [teardown_loop]
    rw [ih, List.filter_filter]
    congr 1
    funext i
    simp only [List.mem_cons, not_or, Bool.decide_and, Bool.and_comm]

theorem preallocate_loop_ret (env : CaptureEnv) (counters : List Nat) (s : State) (ret : Int)
    (h : (preallocate_loop env counters s).2 = some ret) : ret ≠ 0 := by
  induction counters generalizing s with
  | nil => simp [preallocate_loop] at h
  | cons counter rest ih =>
    simp only [preallocate_loop] at h
    split at h
    · exact ih _ h
    · cases h; decide

theorem submit_loop_ret (env : CaptureEnv) (counters : List Nat) (s : State) (ret : Int)
    (h : (submit_loop env counters s).2 = some ret) : ret ≠ 0 := by
  induction counters generalizing s with
  | nil => simp [submit_loop] at h
  | cons counter rest ih =>
    simp only [submit_loop] at h
    split at h
    · next hne => cases h; exact hne
    · exact ih _ h

/-- A return of 0 comes from the end of the function: the final state is the
teardown loop run on the state in which the `while` loop ended. -/
theorem return_zero_is_teardown (handle : slogic_handle)
    (sample_rate : slogic_sample_rate) (samples : List Nat) (recording_size : Nat)
    (tcounter timeout_counter : Int) (env : CaptureEnv) (run : Run)
    (hrun : slogic_read_samples handle sample_rate samples recording_size tcounter
      timeout_counter env = some run)
    (hexit : run.exit = Exit.returned 0) :
    ∃ s4, run.state = teardown_loop (List.range handle.n_transfer_buffers) s4 ∧
      ∀ i ∈ s4.outstanding, i < handle.n_transfer_buffers := by
  unfold slogic_read_samples at hrun
  simp only at hrun
  generalize hn : (allocate_recording handle samples recording_size).n_transfer_buffers = n
    at hrun
  generalize hs0 : State.mk tcounter timeout_counter
    (allocate_recording handle samples recording_size) [] [] = s0 at hrun
  have h0 : s0.outstanding = [] := by rw [← hs0]
  cases hpre : preallocate_loop env (List.range n) s0 with
  | mk s1 r1 =>
    have hs1 : s1.outstanding = [] := by
      have := preallocate_loop_outstanding env (List.range n) s0
      rw [hpre] at this
      exact this.trans h0
    rw [hpre] at hrun
    cases r1 with
    | some ret =>
      have hne := preallocate_loop_ret env (List.range n) s0 ret (by rw [hpre])
      simp only [Option.some.injEq] at hrun
      subst hrun
      simp only [Exit.returned.injEq] at hexit
      exact absurd hexit hne
    | none =>
      simp only at hrun
      cases hsub : submit_loop env (List.range n) s1 with
      | mk s2 r2 =>
        have hs2 : ∀ i ∈ s2.outstanding, i < n := by
          have := submit_loop_outstanding_lt env n (List.range n) s1
            (fun i hi => List.mem_range.mp hi) (by rw [hs1]; simp)
          rw [hsub] at this
          exact this
        rw [hsub] at hrun
        cases r2 with
        | some ret =>
          have hne := submit_loop_ret env (List.range n) s1 ret (by rw [hsub])
          simp only [Option.some.injEq] at hrun
          subst hrun
          simp only [Exit.returned.injEq] at hexit
          exact absurd hexit hne
        | none =>
          simp only at hrun
          split at hrun
          · next hb =>
            simp only [Option.some.injEq] at hrun
            subst hrun
            simp only [Exit.returned.injEq] at hexit
            exact absurd hexit hb
          · split at hrun
            · simp only [Option.some.injEq] at hrun
              subst hrun
              simp at hexit
            · split at hrun
              · simp at hrun
              · next s4 hloop =>
                simp only [Option.some.injEq] at hrun
                subst hrun
                have hs4 := capture_loop_outstanding_lt n env.events
                  { s2 with calls := s2.calls ++ [UsbCall.libusb_bulk_transfer
                      COMMAND_OUT_ENDPOINT [0x01, sample_rate.pause] 2 100] } s4 hs2 hloop
                have hn2 : handle.n_transfer_buffers = n := hn
                rw [hn2]
                exact ⟨s4, rfl, hs4⟩

theorem teardown_loop_calls (counters : List Nat) (s : State) :
    (teardown_loop counters s).calls
      = s.calls ++ counters.flatMap (fun i =>
          [UsbCall.libusb_cancel_transfer i, UsbCall.libusb_free_transfer i]) := by
  induction counters generalizing s with
  | nil => simp [teardown_loop]
  | cons counter rest ih =>
    simp only [teardown_loop]
    rw [ih]
    simp [List.flatMap_cons]

theorem teardown_loop_recording (counters : List Nat) (s : State) :
    (teardown_loop counters s).recording = s.recording := by
  induction counters generalizing s with
  | nil => rfl
  | cons counter rest ih =>
    simp only [teardown_loop]
    rw [ih]

theorem teardown_range_outstanding (n : Nat) (s : State) (h : ∀ i ∈ s.outstanding, i < n) :
    (teardown_loop (List.range n) s).outstanding = [] := by
  rw [teardown_loop_outstanding, List.filter_eq_nil_iff]
  intro i hi
  simp [List.mem_range, h i hi]

/-- The path through the `while` loop: whenever `slogic_read_samples`
returns 0 (target reached, stall, or error of the event loop) no request is
left with the transport. -/
theorem return_zero_leaves_none_outstanding (handle : slogic_handle)
    (sample_rate : slogic_sample_rate) (samples : List Nat) (recording_size : Nat)
    (tcounter timeout_counter : Int) (env : CaptureEnv) (run : Run)
    (hrun : slogic_read_samples handle sample_rate samples recording_size tcounter
      timeout_counter env = some run)
    (hexit : run.exit = Exit.returned 0) : run.state.outstanding = [] := by
  obtain ⟨s4, hstate, hs4⟩ := return_zero_is_teardown handle sample_rate samples
    recording_size tcounter timeout_counter env run hrun hexit
  rw [hstate]
  exact teardown_range_outstanding _ s4 hs4

theorem dispatch_calls_ext (s : State) (c : Completion) :
    ∃ more, (dispatch s c).calls = s.calls ++ more := by
  unfold dispatch
  split
  · exact ⟨[UsbCall.libusb_submit_transfer c.slot], rfl⟩
  · exact ⟨[], by simp⟩

theorem foldl_dispatch_calls_ext (cs : List Completion) (s : State) :
    ∃ more, (cs.foldl dispatch s).calls = s.calls ++ more := by
  induction cs generalizing s with
  | nil => exact ⟨[], by simp⟩
  | cons c cs ih =>
    obtain ⟨m1, h1⟩ := dispatch_calls_ext s c
    obtain ⟨m2, h2⟩ := ih (dispatch s c)
    exact ⟨m1 ++ m2, by rw [List.foldl_cons, h2, h1, List.append_assoc]⟩

theorem handle_events_calls_ext (s : State) (batch : List Completion × Int) :
    ∃ more, (libusb_handle_events s batch).1.calls
      = s.calls ++ UsbCall.libusb_handle_events :: more := by
  obtain ⟨m, h⟩ := foldl_dispatch_calls_ext batch.1
    { s with calls := s.calls ++ [UsbCall.libusb_handle_events] }
  refine ⟨m, ?_⟩
  unfold libusb_handle_events
  rw [h]
  simp

theorem capture_loop_calls_ext (evs : List (List Completion × Int)) (s t : State)
    (h : capture_loop s evs = some t) : ∃ more, t.calls = s.calls ++ more := by
  induction evs generalizing s with
  | nil =>
    simp only [capture_loop] at h
    split at h
    · exact absurd h (by simp)
    · cases h; exact ⟨[], by simp⟩
  | cons batch rest ih =>
    simp only [capture_loop] at h
    obtain ⟨m, hm⟩ := handle_events_calls_ext s batch
    split at h
    · split at h
      · cases h; exact ⟨_, hm⟩
      · obtain ⟨m2, hm2⟩ := ih _ h
        exact ⟨UsbCall.libusb_handle_events :: m ++ m2, by
          rw [hm2, hm]; simp⟩
    · cases h; exact ⟨[], by simp⟩

theorem capture_loop_of_not_condition (s : State) (evs : List (List Completion × Int))
    (h : loop_condition s.recording = false) : capture_loop s evs = some s := by
  cases evs with
  | nil => simp [capture_loop, h]
  | cons batch rest => simp [capture_loop, h]

/-! ## Lemmas on a capture that meets its target exactly -/

theorem same_program_refl (a : State) : same_program a a := ⟨rfl, rfl, rfl, rfl⟩

theorem cb_congr (a b : State) (c : Completion) (h : same_program a b) :
    same_program (slogic_read_samples_callback a c) (slogic_read_samples_callback b c) := by
  obtain ⟨h1, h2, h3, h4⟩ := h
  unfold slogic_read_samples_callback
  simp only [h1, h2, h3, h4]
  exact ⟨rfl, rfl, rfl, rfl⟩

theorem cb_outstanding_mem (s : State) (c : Completion) (i : Nat) (h : i ∈ s.outstanding) :
    i ∈ (slogic_read_samples_callback s c).outstanding := by
  have ho : (slogic_read_samples_callback s c).outstanding
      = if c.submit_ret = 0 then c.slot :: s.outstanding else s.outstanding := rfl
  rw [ho]
  split
  · exact List.mem_cons_of_mem _ h
  · exact h

/-- Completions of distinct outstanding slots are all delivered: the
program state is the one of a plain run of the handler, and every other
outstanding slot stays outstanding. -/
theorem foldl_dispatch_all (cs : List Completion) (s r : State) (hsame : same_program s r)
    (hnodup : (cs.map (·.slot)).Nodup) (hout : ∀ c ∈ cs, c.slot ∈ s.outstanding) :
    same_program (cs.foldl dispatch s) (run_callbacks r cs) ∧
    ∀ i ∈ s.outstanding, i ∉ cs.map (·.slot) → i ∈ (cs.foldl dispatch s).outstanding := by
  induction cs generalizing s r with
  | nil => exact ⟨hsame, fun i hi _ => hi⟩
  | cons c cs ih =>
    have hc : c.slot ∈ s.outstanding := hout c (by simp)
    have hnd := List.nodup_cons.mp hnodup
    have hd : dispatch s c = slogic_read_samples_callback
        { s with outstanding := s.outstanding.filter (· ≠ c.slot) } c := by
      unfold dispatch
      rw [if_pos hc]
    have hkeep : ∀ i ∈ s.outstanding, i ≠ c.slot → i ∈ (dispatch s c).outstanding := by
      intro i hi hne
      rw [hd]
      apply cb_outstanding_mem
      simp [List.mem_filter, hi, hne]
    have hsame1 : same_program (dispatch s c) (slogic_read_samples_callback r c) := by
      rw [hd]
      exact cb_congr _ r c hsame
    have hout1 : ∀ d ∈ cs, d.slot ∈ (dispatch s c).outstanding := by
      intro d hdm
      apply hkeep _ (hout d (by simp [hdm]))
      intro heq
      exact hnd.1 (by
        show c.slot ∈ cs.map (·.slot)
        rw [← heq]
        exact List.mem_map_of_mem _ hdm)
    obtain ⟨h1, h2⟩ := ih (dispatch s c) (slogic_read_samples_callback r c) hsame1 hnd.2 hout1
    refine ⟨h1, ?_⟩
    intro i hi hni
    simp only [List.map_cons, List.mem_cons, not_or] at hni
    exact h2 i (hkeep i hi hni.1) hni.2

theorem total_length_append (xs ys : List Completion) :
    total_length (xs ++ ys) = total_length xs + total_length ys := by
  induction xs with
  | nil => simp [total_length]
  | cons c xs ih =>
    show c.data.length + total_length (xs ++ ys) = c.data.length + total_length xs + _
    rw [ih]
    omega

theorem toSizeT_of_nat (n : Nat) (h : n < 2147483648) : toSizeT (n : Int) = n := by
  unfold toSizeT
  omega

/-- The `while` loop on a script whose completions bring `sample_count`
exactly to the target: it ends with the target met. -/
theorem capture_loop_exact (b T : Nat) (hb : 0 < b) (hT : T < 2147483648)
    (evs rest : List (List Completion × Int)) (s : State)
    (hsize : s.recording.recording_size = T) (hf : s.recording.failed = false)
    (hsc0 : 0 ≤ s.recording.sample_count)
    (hsc : s.recording.sample_count + (total_length (completions_of evs) : Int) = (T : Int))
    (htc0 : 0 ≤ s.recording.transfer_counter)
    (htc : s.recording.transfer_counter + ((completions_of evs).length : Int) < 2147483648)
    (hret : ∀ e ∈ evs, e.2 = 0)
    (hdata : ∀ c ∈ completions_of evs, c.data.length = b)
    (hnodup : ((completions_of evs).map (·.slot)).Nodup)
    (hout : ∀ c ∈ completions_of evs, c.slot ∈ s.outstanding) :
    ∃ t, capture_loop s (evs ++ rest) = some t ∧
      t.recording.sample_count = (T : Int) ∧ t.recording.failed = false ∧
      t.recording.transfer_counter
        = s.recording.transfer_counter + ((completions_of evs).length : Int) ∧
      t.recording.recording_size = T := by
  induction evs generalizing s with
  | nil =>
    simp only [completions_of, List.flatMap_nil, total_length, Nat.cast_zero, add_zero,
      List.length_nil] at hsc ⊢
    have hloop : loop_condition s.recording = false := by
      unfold loop_condition
      rw [hsc, toSizeT_of_nat T hT, hsize]
      simp
    exact ⟨s, capture_loop_of_not_condition s _ hloop, hsc, hf, rfl, hsize⟩
  | cons e evs ih =>
    have hflat : completions_of (e :: evs) = e.1 ++ completions_of evs := by
      simp [completions_of, List.flatMap_cons]
    rw [hflat] at hsc htc hdata hnodup hout
    rw [hflat]
    rw [total_length_append] at hsc
    rw [List.map_append] at hnodup
    have hnd := List.nodup_append.mp hnodup
    simp only [List.length_append, Nat.cast_add] at htc ⊢
    have hlen1 : total_length e.1 = e.1.length * b :=
      total_length_of_uniform e.1 b (fun c hc => hdata c (List.mem_append_left _ hc))
    have hlen2 : total_length (completions_of evs) = (completions_of evs).length * b :=
      total_length_of_uniform _ b (fun c hc => hdata c (List.mem_append_right _ hc))
    by_cases hloop : loop_condition s.recording = true
    · -- the loop calls the transport for the batch `e`
      have hstep : capture_loop s (e :: evs ++ rest)
          = capture_loop (libusb_handle_events s e).1 (evs ++ rest) := by
        have he : e.2 = 0 := hret e (by simp)
        show capture_loop s (e :: (evs ++ rest)) = _
        simp only [capture_loop, hloop, if_true]
        have : (libusb_handle_events s e).2 = 0 := he
        simp [this]
      let s1 : State := { s with calls := s.calls ++ [UsbCall.libusb_handle_events] }
      obtain ⟨hsame, hkeep⟩ := foldl_dispatch_all e.1 s1 s1 (same_program_refl s1) hnd.1
        (fun c hc => hout c (List.mem_append_left _ hc))
      have hrec : (libusb_handle_events s e).1.recording = (run_callbacks s1 e.1).recording :=
        hsame.2.2.1
      have hne1 : ∀ c ∈ e.1, c.data.length ≠ 0 := by
        intro c hc
        rw [hdata c (List.mem_append_left _ hc)]
        omega
      have hsc1 : (run_callbacks s1 e.1).recording.sample_count
          = s.recording.sample_count + (total_length e.1 : Int) :=
        run_sample_count e.1 s1 hsc0 (by show s.recording.sample_count + _ < _; omega)
      have htc1 : (run_callbacks s1 e.1).recording.transfer_counter
          = s.recording.transfer_counter + (e.1.length : Int) :=
        run_transfer_counter e.1 s1 htc0 (by show s.recording.transfer_counter + _ < _; omega)
      have hf1 : (run_callbacks s1 e.1).recording.failed = false :=
        run_failed_of_no_empty e.1 s1 hf hne1
      have hsz1 : (run_callbacks s1 e.1).recording.recording_size = T := by
        rw [run_recording_size]; exact hsize
      have hout1 : ∀ c ∈ completions_of evs, c.slot ∈ (libusb_handle_events s e).1.outstanding := by
        intro c hc
        apply hkeep _ (hout c (List.mem_append_right _ hc))
        intro hmem
        exact hnd.2.2 hmem (List.mem_map_of_mem _ hc)
      obtain ⟨t, ht, h1, h2, h3, h4⟩ := ih (libusb_handle_events s e).1
        (by rw [hrec]; exact hsz1) (by rw [hrec]; exact hf1)
        (by rw [hrec, hsc1]; omega) (by rw [hrec, hsc1]; omega)
        (by rw [hrec, htc1]; omega) (by rw [hrec, htc1]; omega)
        (fun e2 he2 => hret e2 (by simp [he2]))
        (fun c hc => hdata c (List.mem_append_right _ hc)) hnd.2.1 hout1
      refine ⟨t, by rw [hstep]; exact ht, h1, h2, ?_, h4⟩
      rw [h3, hrec, htc1]
      omega
    · -- the target is already met: no completion is left in the script
      have hloop0 : loop_condition s.recording = false := by
        cases hl : loop_condition s.recording with
        | true => exact absurd hl hloop
        | false => rfl
      have hge : (T : Int) ≤ s.recording.sample_count := by
        unfold loop_condition at hloop0
        rw [hf, hsize] at hloop0
        have hlt : s.recording.sample_count < 2147483648 := by omega
        have hts : toSizeT s.recording.sample_count = s.recording.sample_count.toNat := by
          unfold toSizeT
          omega
        rw [hts] at hloop0
        simp at hloop0
        omega
      have hz1 : e.1.length * b = 0 := by omega
      have hz2 : (completions_of evs).length * b = 0 := by omega
      have hl1 : e.1.length = 0 := by
        rcases Nat.mul_eq_zero.mp hz1 with h | h
        · exact h
        · omega
      have hl2 : (completions_of evs).length = 0 := by
        rcases Nat.mul_eq_zero.mp hz2 with h | h
        · exact h
        · omega
      refine ⟨s, capture_loop_of_not_condition s _ hloop0, by omega, hf, ?_, hsize⟩
      rw [hl1, hl2]
      simp

theorem preallocate_loop_ok (evs : List (List Completion × Int)) (counters : List Nat)
    (s : State) :
    (preallocate_loop (ok_env evs) counters s).2 = none ∧
    (preallocate_loop (ok_env evs) counters s).1.recording = s.recording ∧
    (preallocate_loop (ok_env evs) counters s).1.outstanding = s.outstanding := by
  induction counters generalizing s with
  | nil => exact ⟨rfl, rfl, rfl⟩
  | cons counter rest ih =>
    simp only [preallocate_loop, ok_env, if_true]
    exact ih _

theorem submit_loop_ok (evs : List (List Completion × Int)) (counters : List Nat)
    (s : State) :
    (submit_loop (ok_env evs) counters s).2 = none ∧
    (submit_loop (ok_env evs) counters s).1.recording.sample_count = s.recording.sample_count ∧
    (submit_loop (ok_env evs) counters s).1.recording.failed = s.recording.failed ∧
    (submit_loop (ok_env evs) counters s).1.recording.transfer_counter
      = s.recording.transfer_counter ∧
    (submit_loop (ok_env evs) counters s).1.recording.recording_size
      = s.recording.recording_size ∧
    (∀ i, i ∈ counters ∨ i ∈ s.outstanding →
      i ∈ (submit_loop (ok_env evs) counters s).1.outstanding) := by
  induction counters generalizing s with
  | nil => exact ⟨rfl, rfl, rfl, rfl, rfl, fun i hi => by simpa using hi⟩
  | cons counter rest ih =>
    simp only [submit_loop, ok_env, ne_eq, not_true_eq_false, if_false]
    obtain ⟨h1, h2, h3, h4, h5, h6⟩ := ih
      { tcounter := wrapInt (s.tcounter + 1), timeout_counter := s.timeout_counter,
        recording := { s.recording with
          transfers := s.recording.transfers.set counter ⟨s.tcounter⟩ },
        outstanding := counter :: s.outstanding,
        calls := s.calls ++ [UsbCall.libusb_submit_transfer counter] }
    refine ⟨h1, h2, h3, h4, h5, ?_⟩
    intro i hi
    apply h6
    simp only [List.mem_cons] at hi ⊢
    tauto

theorem full_round_slots (p b : Nat) : (full_round p b).map (·.slot) = List.range p := by
  unfold full_round
  rw [List.map_map]
  exact List.map_id' (List.range p)

theorem completions_of_single (cs : List Completion) (ret : Int) :
    completions_of [(cs, ret)] = cs := by
  simp [completions_of]

/-- The capture of 2^31 bytes with two slots of 2^30 bytes, each completing
once with a full buffer, whatever the bytes are. -/
theorem overflow_run (samples d0 d1 : List Nat) (h0 : d0.length = 1073741824)
    (h1 : d1.length = 1073741824) :
    (slogic_read_samples ⟨1073741824, 2⟩ ⟨1, "24MHz", 24000000⟩ samples 2147483648 0 0
        (ok_env [([⟨0, d0, 0⟩, ⟨1, d1, 0⟩], 0)])).map Run.summary
      = some (Exit.returned 0, -2147483648, false, 2, false, []) := by
  have hr : List.range 2 = [0, 1] := rfl
  simp [slogic_read_samples, allocate_recording, hr, preallocate_loop, submit_loop, ok_env,
    capture_loop, loop_condition, libusb_handle_events, dispatch,
    slogic_read_samples_callback, Completion.actual_length, h0, h1, teardown_loop, wrapInt,
    toSizeT, Run.summary]

theorem loop_condition_of_done (r : slogic_recording)
    (h : r.failed = true ∨
      (0 ≤ r.sample_count ∧ r.sample_count < 2147483648 ∧
        (r.recording_size : Int) ≤ r.sample_count)) :
    loop_condition r = false := by
  unfold loop_condition
  rcases h with h | ⟨h0, h1, h2⟩
  · simp [h]
  · have hts : toSizeT r.sample_count = r.sample_count.toNat := by
      unfold toSizeT
      omega
    rw [hts]
    have : ¬ r.sample_count.toNat < r.recording_size := by omega
    simp [this]

theorem loop_condition_of_pending (r : slogic_recording) (hf : r.failed = false)
    (h0 : 0 ≤ r.sample_count) (h1 : r.sample_count < (r.recording_size : Int)) :
    loop_condition r = true := by
  unfold loop_condition
  have hts : toSizeT r.sample_count < r.recording_size := by
    unfold toSizeT
    omega
  simp [hts, hf]

/-! ## Sample-rate lookup -/

/-- Claim C1. Each of the ten documented names is found with its divider
byte and frequency; the lower-case spelling "24mhz", the empty string and
every other C string are not found. -/
theorem parse_sample_rate_table :
    slogic_parse_sample_rate "24MHz" = some ⟨1, "24MHz", 24000000⟩ ∧
    slogic_parse_sample_rate "16MHz" = some ⟨2, "16MHz", 16000000⟩ ∧
    slogic_parse_sample_rate "12MHz" = some ⟨3, "12MHz", 12000000⟩ ∧
    slogic_parse_sample_rate "8MHz" = some ⟨5, "8MHz", 8000000⟩ ∧
    slogic_parse_sample_rate "4MHz" = some ⟨11, "4MHz", 4000000⟩ ∧
    slogic_parse_sample_rate "2MHz" = some ⟨24, "2MHz", 2000000⟩ ∧
    slogic_parse_sample_rate "1MHz" = some ⟨47, "1MHz", 1000000⟩ ∧
    slogic_parse_sample_rate "500kHz" = some ⟨95, "500kHz", 500000⟩ ∧
    slogic_parse_sample_rate "250kHz" = some ⟨191, "250kHz", 250000⟩ ∧
    slogic_parse_sample_rate "200kHz" = some ⟨239, "200kHz", 200000⟩ ∧
    slogic_parse_sample_rate "24mhz" = none ∧
    slogic_parse_sample_rate "" = none ∧
    ∀ str : String, isCString str → str ∉ sample_rate_names →
      slogic_parse_sample_rate str = none := by
  refine ⟨by decide, by decide, by decide, by decide, by decide, by decide, by decide,
    by decide, by decide, by decide, by decide, by decide, ?_⟩
  intro str hs h
  exact parse_none_of_not_mem str hs h

/-- Witness of C1 at the string "10MHz". -/
theorem parse_sample_rate_table_witness :
    isCString "10MHz" ∧ "10MHz" ∉ sample_rate_names ∧
      slogic_parse_sample_rate "10MHz" = none :=
  ⟨by decide, by decide,
    parse_sample_rate_table.2.2.2.2.2.2.2.2.2.2.2.2 "10MHz" (by decide) (by decide)⟩

/-! ## The completion handler -/

/-- Claim C2, as stated, fails: in a capture of 4 bytes with one slot, after
the completion that delivers the bytes 7 and 8 the first `sample_count`
bytes of the destination buffer are not the delivered payload. -/
theorem destination_buffer_not_written :
    ¬ ((run_callbacks (streaming_state ⟨4096, 1⟩ ⟨1, "24MHz", 24000000⟩ [0, 0, 0, 0] 4 0 0)
          [⟨0, [7, 8], 0⟩]).recording.samples.take
        (run_callbacks (streaming_state ⟨4096, 1⟩ ⟨1, "24MHz", 24000000⟩ [0, 0, 0, 0] 4 0 0)
          [⟨0, [7, 8], 0⟩]).recording.sample_count.toNat
        = payloads [⟨0, [7, 8], 0⟩]) := by
  decide

/-- Claim C2, amended. Completions advance `sample_count` by the delivered
length and leave the destination buffer as it was: after any sequence of
completions (the count staying within a C `int`) `sample_count` has grown by
the length of the concatenated payloads and `samples` is unchanged. -/
theorem completions_advance_count_only (s : State) (cs : List Completion)
    (h0 : 0 ≤ s.recording.sample_count)
    (h1 : s.recording.sample_count + (total_length cs : Int) < 2147483648) :
    (run_callbacks s cs).recording.samples = s.recording.samples ∧
    (run_callbacks s cs).recording.sample_count
      = s.recording.sample_count + ((payloads cs).length : Int) := by
  refine ⟨run_samples cs s, ?_⟩
  rw [total_length_payloads]
  exact run_sample_count cs s h0 h1

/-- Witness of the amended C2: two completions in a capture of 4 bytes. -/
theorem completions_advance_count_only_witness :
    (run_callbacks (streaming_state ⟨4096, 2⟩ ⟨1, "24MHz", 24000000⟩ [0, 0, 0, 0] 4 0 0)
        [⟨0, [7, 8], 0⟩, ⟨1, [9], 0⟩]).recording.samples = [0, 0, 0, 0] ∧
    (run_callbacks (streaming_state ⟨4096, 2⟩ ⟨1, "24MHz", 24000000⟩ [0, 0, 0, 0] 4 0 0)
        [⟨0, [7, 8], 0⟩, ⟨1, [9], 0⟩]).recording.sample_count = 0 + ((3 : Nat) : Int) :=
  completions_advance_count_only
    (streaming_state ⟨4096, 2⟩ ⟨1, "24MHz", 24000000⟩ [0, 0, 0, 0] 4 0 0)
    [⟨0, [7, 8], 0⟩, ⟨1, [9], 0⟩] (by decide) (by decide)

/-- Claim C3, as stated, fails: with a target of one byte, the completion
that delivers two bytes leaves `sample_count` above `recording_size`. -/
theorem sample_count_exceeds_target :
    ¬ ((run_callbacks (streaming_state ⟨4096, 1⟩ ⟨1, "24MHz", 24000000⟩ [0] 1 0 0)
          [⟨0, [7, 8], 0⟩]).recording.sample_count
        ≤ ((run_callbacks (streaming_state ⟨4096, 1⟩ ⟨1, "24MHz", 24000000⟩ [0] 1 0 0)
          [⟨0, [7, 8], 0⟩]).recording.recording_size : Int)) := by
  decide

/-- Claim C3, amended. From `sample_count = 0`, after each of the first `n`
completions of any sequence (each delivering at most `b` bytes, fewer than
2^31 in total) `sample_count` is the number of bytes delivered so far: it is
not negative, at most `n * b`, and within `recording_size` exactly when the
bytes delivered are. -/
theorem sample_count_is_total_delivered (s : State) (cs : List Completion) (b n : Nat)
    (h0 : s.recording.sample_count = 0) (h1 : total_length cs < 2147483648)
    (hb : ∀ c ∈ cs, c.data.length ≤ b) :
    0 ≤ (run_callbacks s (cs.take n)).recording.sample_count ∧
    (run_callbacks s (cs.take n)).recording.sample_count = (total_length (cs.take n) : Int) ∧
    (run_callbacks s (cs.take n)).recording.sample_count ≤ ((n * b : Nat) : Int) ∧
    ((run_callbacks s (cs.take n)).recording.sample_count
        ≤ ((run_callbacks s (cs.take n)).recording.recording_size : Int)
      ↔ total_length (cs.take n) ≤ s.recording.recording_size) := by
  have hle := total_length_take_le cs n
  have heq : (run_callbacks s (cs.take n)).recording.sample_count
      = (total_length (cs.take n) : Int) := by
    rw [run_sample_count (cs.take n) s (by omega) (by omega), h0]
    omega
  have hmul : total_length (cs.take n) ≤ (cs.take n).length * b :=
    total_length_le_mul _ b (fun c hc => hb c (List.mem_of_mem_take hc))
  have hlen : (cs.take n).length * b ≤ n * b :=
    Nat.mul_le_mul_right b (by simp [List.length_take])
  have hrs : ∀ (l : List Completion) (t : State),
      (run_callbacks t l).recording.recording_size = t.recording.recording_size := by
    intro l
    induction l with
    | nil => intro t; rfl
    | cons c l ih => intro t; rw [run_callbacks_cons, ih, cb_recording_size]
  refine ⟨by omega, heq, ?_, ?_⟩
  · rw [heq]
    exact_mod_cast le_trans hmul hlen
  · rw [heq, hrs]
    exact Nat.cast_le

/-- Witness of the amended C3: the state after the second of three
completions in a capture of 4 bytes. -/
theorem sample_count_is_total_delivered_witness :
    (run_callbacks (streaming_state ⟨4096, 2⟩ ⟨1, "24MHz", 24000000⟩ [0, 0, 0, 0] 4 0 0)
        ([⟨0, [7, 8], 0⟩, ⟨1, [9], 0⟩, ⟨0, [1, 2], 0⟩].take 2)).recording.sample_count
      = ((total_length ([⟨0, [7, 8], 0⟩, ⟨1, [9], 0⟩, ⟨0, [1, 2], 0⟩].take 2) : Nat) : Int) :=
  (sample_count_is_total_delivered
    (streaming_state ⟨4096, 2⟩ ⟨1, "24MHz", 24000000⟩ [0, 0, 0, 0] 4 0 0)
    [⟨0, [7, 8], 0⟩, ⟨1, [9], 0⟩, ⟨0, [1, 2], 0⟩] 4096 2 (by decide) (by decide)
    (by decide)).2.1

/-- Claim C5, as stated, fails: in a fresh capture with pool depth 2, after
eleven zero-byte completions in a row `failed` is still false. -/
theorem not_failed_after_eleven :
    ¬ ((run_callbacks (streaming_state ⟨4096, 2⟩ ⟨1, "24MHz", 24000000⟩ [0, 0, 0, 0] 4 0 0)
          (stall_script 11)).recording.failed = true ∧
       (run_callbacks (streaming_state ⟨4096, 2⟩ ⟨1, "24MHz", 24000000⟩ [0, 0, 0, 0] 4 0 0)
          (stall_script 11)).recording.sample_count = 0) := by
  decide

/-- Claim C5, amended. With `timeout_counter` at 0, `failed` false and no
byte collected, after a run of zero-byte completions `failed` is true
exactly when the run has at least twelve of them, and `sample_count` is
still 0. -/
theorem stall_sets_failed_at_twelfth (s : State) (cs : List Completion)
    (ht : s.timeout_counter = 0) (hf : s.recording.failed = false)
    (hs : s.recording.sample_count = 0) (he : ∀ c ∈ cs, c.data = [])
    (hl : cs.length < 2147483648) :
    ((run_callbacks s cs).recording.failed = true ↔ 12 ≤ cs.length) ∧
    (run_callbacks s cs).recording.sample_count = 0 := by
  have hcount := empty_count_of_all_empty cs he
  have htotal := total_length_of_all_empty cs he
  constructor
  · rw [run_failed_iff cs s hf (by omega) (by omega), hcount, ht]
    omega
  · rw [run_sample_count cs s (by omega) (by omega), hs, htotal]
    rfl

/-- Witness of the amended C5: pool depth 2, twelve zero-byte completions. -/
theorem stall_sets_failed_at_twelfth_witness :
    (run_callbacks (streaming_state ⟨4096, 2⟩ ⟨1, "24MHz", 24000000⟩ [0, 0, 0, 0] 4 0 0)
        (stall_script 12)).recording.failed = true ∧
    (run_callbacks (streaming_state ⟨4096, 2⟩ ⟨1, "24MHz", 24000000⟩ [0, 0, 0, 0] 4 0 0)
        (stall_script 12)).recording.sample_count = 0 :=
  ⟨(stall_sets_failed_at_twelfth
      (streaming_state ⟨4096, 2⟩ ⟨1, "24MHz", 24000000⟩ [0, 0, 0, 0] 4 0 0) (stall_script 12)
      (by decide) (by decide) (by decide) (by decide) (by decide)).1.2 (by decide),
   (stall_sets_failed_at_twelfth
      (streaming_state ⟨4096, 2⟩ ⟨1, "24MHz", 24000000⟩ [0, 0, 0, 0] 4 0 0) (stall_script 12)
      (by decide) (by decide) (by decide) (by decide) (by decide)).2⟩

/-- Claim C10, as stated, fails: in a fresh process, a capture of 100 bytes
whose completions alternate between zero bytes and one byte, twelve times,
has no run of zero-byte completions longer than one, and `failed` is set. -/
theorem failed_without_long_empty_run :
    ¬ (longest_empty_run (idle_script 12) ≤ 10 →
        (run_callbacks
          (streaming_state ⟨4096, 2⟩ ⟨1, "24MHz", 24000000⟩ (List.replicate 100 0) 100 0 0)
          (idle_script 12)).recording.failed = false) := by
  decide

/-- Claim C10, amended. The counter `timeout_counter` counts every
zero-byte completion of the process and is never reset. In a capture that
starts with `failed` false, `failed` becomes true exactly when the capture
has a zero-byte completion and the counter's value at its start plus the
number of its zero-byte completions reaches twelve. -/
theorem failed_iff_twelve_empty_in_process (s : State) (cs : List Completion)
    (hf : s.recording.failed = false) (h0 : 0 ≤ s.timeout_counter)
    (h1 : s.timeout_counter + (empty_count cs : Int) < 2147483648) :
    ((run_callbacks s cs).recording.failed = true
      ↔ (1 ≤ empty_count cs ∧ 12 ≤ s.timeout_counter + (empty_count cs : Int))) ∧
    (run_callbacks s cs).timeout_counter = s.timeout_counter + (empty_count cs : Int) :=
  ⟨run_failed_iff cs s hf h0 h1, run_timeout_counter cs s h0 h1⟩

/-- Witness of the amended C10: a capture that starts when the process has
already seen eleven zero-byte completions fails on its first one. -/
theorem failed_iff_twelve_empty_in_process_witness :
    (run_callbacks (streaming_state ⟨4096, 2⟩ ⟨1, "24MHz", 24000000⟩ [0, 0, 0, 0] 4 2 11)
        [⟨0, [7], 0⟩, empty_completion 1]).recording.failed = true :=
  (failed_iff_twelve_empty_in_process
    (streaming_state ⟨4096, 2⟩ ⟨1, "24MHz", 24000000⟩ [0, 0, 0, 0] 4 2 11)
    [⟨0, [7], 0⟩, empty_completion 1] (by decide) (by decide) (by decide)).1.2
    ⟨by decide, by decide⟩

/-! ## A capture that meets its target exactly -/

/-- Claim C9, as stated, fails: with pool depth 2 and buffers of 2^30
bytes the target `p * b` is 2^31, and after each slot has completed once
with a full buffer the capture does not end with `sample_count` at the
target: the `int` counter has wrapped to -2^31. -/
theorem exact_target_overflows_int :
    ¬ ((slogic_read_samples ⟨1073741824, 2⟩ ⟨1, "24MHz", 24000000⟩ [] (2 * 1073741824) 0 0
          (ok_env [(full_round 2 1073741824, 0)])).map Run.summary
        = some (Exit.returned 0, ((2 * 1073741824 : Nat) : Int), false, ((2 : Nat) : Int),
            false, [])) := by
  have hround : full_round 2 1073741824
      = [⟨0, List.replicate 1073741824 0, 0⟩, ⟨1, List.replicate 1073741824 0, 0⟩] := rfl
  have hrun := overflow_run [] (List.replicate 1073741824 0) (List.replicate 1073741824 0)
    (List.length_replicate _ _) (List.length_replicate _ _)
  rw [hround]
  intro h
  have h2 : (2 * 1073741824 : Nat) = 2147483648 := rfl
  rw [h2, hrun] at h
  have hcount : (-2147483648 : Int) = ((2147483648 : Nat) : Int) :=
    congrArg (fun r => r.2.1) (Option.some.inj h)
  omega

/-- Claim C9, amended. For a pool of depth `p` and buffers of `b` bytes with
`p * b` the target, positive and below 2^31 (the range of the `int`
counters): when allocation, submission and the command succeed and the
transport then delivers, in batches of any size, one completion of `b`
bytes for each of the `p` slots, `slogic_read_samples` returns 0 with
`sample_count` at the target, `failed` false, `transfer_counter` at `p`,
the loop condition false and no request outstanding; what the transport
could deliver after that is not asked for. -/
theorem exact_target_capture (p b : Nat) (sample_rate : slogic_sample_rate)
    (samples : List Nat) (tcounter timeout_counter : Int)
    (evs rest : List (List Completion × Int))
    (hpos : 0 < p * b) (hint : p * b < 2147483648)
    (hret : ∀ e ∈ evs, e.2 = 0)
    (hslots : ((completions_of evs).map (·.slot)).Perm (List.range p))
    (hdata : ∀ c ∈ completions_of evs, c.data.length = b) :
    (slogic_read_samples ⟨b, p⟩ sample_rate samples (p * b) tcounter timeout_counter
        (ok_env (evs ++ rest))).map Run.summary
      = some (Exit.returned 0, ((p * b : Nat) : Int), false, (p : Int), false, []) := by
  have hb : 0 < b := Nat.pos_of_ne_zero (fun h => by simp [h] at hpos)
  have hp : p ≤ p * b := Nat.le_mul_of_pos_right p hb
  have hlen : (completions_of evs).length = p := by
    have := hslots.length_eq
    simpa using this
  have hnodup : ((completions_of evs).map (·.slot)).Nodup :=
    hslots.nodup_iff.mpr (List.nodup_range p)
  have hlt : ∀ c ∈ completions_of evs, c.slot ∈ List.range p := fun c hc =>
    hslots.subset (List.mem_map_of_mem _ hc)
  have htotal : total_length (completions_of evs) = p * b := by
    rw [total_length_of_uniform _ b hdata, hlen]
  unfold slogic_read_samples
  simp only
  have hn : (allocate_recording ⟨b, p⟩ samples (p * b)).n_transfer_buffers = p := rfl
  rw [hn]
  generalize hs0 : State.mk tcounter timeout_counter
    (allocate_recording ⟨b, p⟩ samples (p * b)) [] [] = s0
  have hrec0 : s0.recording = allocate_recording ⟨b, p⟩ samples (p * b) := by rw [← hs0]
  obtain ⟨hp1, hp2, _⟩ := preallocate_loop_ok (evs ++ rest) (List.range p) s0
  cases hpre : preallocate_loop (ok_env (evs ++ rest)) (List.range p) s0 with
  | mk s1 r1 =>
    rw [hpre] at hp1 hp2
    simp only at hp1 hp2
    subst hp1
    simp only
    obtain ⟨hq1, hq2, hq3, hq4, hq5, hq6⟩ := submit_loop_ok (evs ++ rest) (List.range p) s1
    cases hsub : submit_loop (ok_env (evs ++ rest)) (List.range p) s1 with
    | mk s2 r2 =>
      rw [hsub] at hq1 hq2 hq3 hq4 hq5 hq6
      simp only at hq1 hq2 hq3 hq4 hq5 hq6
      subst hq1
      simp only
      rw [hp2, hrec0] at hq2 hq3 hq4 hq5
      have hbulk : (ok_env (evs ++ rest)).bulk_ret = 0 := rfl
      have htr : (ok_env (evs ++ rest)).transferred = 2 := rfl
      have hevs : (ok_env (evs ++ rest)).events = evs ++ rest := rfl
      simp only [hbulk, htr, hevs, ne_eq, not_true_eq_false, if_false]
      obtain ⟨t, ht, h1, h2, h3, h4⟩ := capture_loop_exact b (p * b) hb hint evs rest
        { s2 with calls := s2.calls ++ [UsbCall.libusb_bulk_transfer COMMAND_OUT_ENDPOINT
            [0x01, sample_rate.pause] 2 100] }
        hq5 hq3 (by show 0 ≤ s2.recording.sample_count; rw [hq2]; exact le_refl _)
        (by show s2.recording.sample_count + _ = _; rw [hq2, htotal]; simp [allocate_recording])
        (by show 0 ≤ s2.recording.transfer_counter; rw [hq4]; exact le_refl _)
        (by show s2.recording.transfer_counter + _ < _
            rw [hq4, hlen]; simp only [allocate_recording]; omega)
        hret hdata hnodup (fun c hc => hq6 c.slot (Or.inl (hlt c hc)))
      have hout : ∀ i ∈ t.outstanding, i < p := by
        apply capture_loop_outstanding_lt p (evs ++ rest) _ t _ ht
        intro i hi
        have hall := submit_loop_outstanding_lt (ok_env (evs ++ rest)) p (List.range p) s1
          (fun i hi => List.mem_range.mp hi) (by
            have := preallocate_loop_outstanding (ok_env (evs ++ rest)) (List.range p) s0
            rw [hpre] at this
            rw [this, ← hs0]
            simp)
        rw [hsub] at hall
        exact hall i hi
      rw [ht]
      have hloop : loop_condition t.recording = false := by
        unfold loop_condition
        rw [h1, toSizeT_of_nat _ hint, h4]
        simp
      have h3b : t.recording.transfer_counter = (p : Int) := by
        have : s2.recording.transfer_counter = 0 := hq4
        rw [h3]
        show s2.recording.transfer_counter + _ = _
        rw [this, hlen]
        simp
      simp only [Option.map_some', Run.summary, teardown_loop_recording,
        teardown_range_outstanding p t hout, h1, h2, h3b, hloop]

/-- Witness of the amended C9: pool depth 4, buffers of 4096 bytes, target
16384, the four completions delivered by one call of the event loop, a
further batch left undelivered. -/
theorem exact_target_capture_witness :
    (slogic_read_samples ⟨4096, 4⟩ ⟨1, "24MHz", 24000000⟩ (List.replicate 16384 0)
        (4 * 4096) 0 0
        (ok_env ([(full_round 4 4096, 0)] ++ [([empty_completion 0], 0)]))).map Run.summary
      = some (Exit.returned 0, ((4 * 4096 : Nat) : Int), false, ((4 : Nat) : Int), false, []) :=
  exact_target_capture 4 4096 ⟨1, "24MHz", 24000000⟩ (List.replicate 16384 0) 0 0
    [(full_round 4 4096, 0)] [([empty_completion 0], 0)] (by decide) (by decide)
    (by decide)
    (by rw [completions_of_single, full_round_slots])
    (by rw [completions_of_single]; exact full_round_data 4 4096)

/-! ## Firmware upload on open -/

/-- Claim C8. For a command table whose byte size is reported by
`slogic_firm_cmds_size`, whose payload length is the third field of a row
and fits the 16-bit length of a control transfer, the payloads together
fitting a C `int`: when the device is found and the probe returns a
non-zero code, `slogic_open` writes the probe byte, issues exactly one
vendor control write (0x40, 0xA0) per complete row in table order, with the
payload length of the row and the offset the sum of the lengths before it,
sleeps, closes device and context and returns no handle; when the probe
returns 0 it issues no control write and returns the handle. -/
theorem open_uploads_firmware_iff_probe_fails (fw : Firmware) (probe_ret : Int)
    (hsize : fw.slogic_firm_cmds_size = 4 * fw.slogic_firm_cmds.length)
    (hidx : fw.INDEX_PAYLOAD_SIZE = 2)
    (hlen : ∀ k, k < fw.slogic_firm_cmds.length / 3 → fw_row fw k 2 < 65536)
    (hsum : payload_offset fw (fw.slogic_firm_cmds.length / 3) < 2147483648) :
    (probe_ret ≠ 0 →
      slogic_open fw ⟨true, probe_ret⟩
        = (none,
           [UsbCall.libusb_init, UsbCall.libusb_set_debug 3,
            UsbCall.open_device 0x0925 0x3881,
            UsbCall.libusb_bulk_transfer 0x01 [0x05] 1 100]
           ++ (List.range (fw.slogic_firm_cmds.length / 3)).map (row_write fw)
           ++ [UsbCall.sleep 1, UsbCall.libusb_close, UsbCall.libusb_exit])) ∧
    slogic_open fw ⟨true, 0⟩
      = (some ⟨4096, 4⟩,
         [UsbCall.libusb_init, UsbCall.libusb_set_debug 3,
          UsbCall.open_device 0x0925 0x3881,
          UsbCall.libusb_bulk_transfer 0x01 [0x05] 1 100]) := by
  constructor
  · intro hp
    have hcount : cmd_count fw = fw.slogic_firm_cmds.length / 3 := by
      unfold cmd_count
      rw [hsize]
      omega
    have hup := upload_loop_eq fw hidx (fw.slogic_firm_cmds.length / 3) 0
      (fun j hj => hlen j (by omega)) (by simpa using hsum)
    have hup0 : upload_loop fw (fw.slogic_firm_cmds.length / 3) 0 0
        = (List.range (fw.slogic_firm_cmds.length / 3)).map (row_write fw) := by
      rw [List.range_eq_range']
      exact hup
    simp [slogic_open, slogic_is_firmware_uploaded, slogic_upload_firmware, hp, hcount, hup0,
      USB_VENDOR_ID, USB_PRODUCT_ID, COMMAND_OUT_ENDPOINT]
  · simp [slogic_open, slogic_is_firmware_uploaded, USB_VENDOR_ID, USB_PRODUCT_ID,
      COMMAND_OUT_ENDPOINT, DEFAULT_TRANSFER_BUFFER_SIZE, DEFAULT_N_TRANSFER_BUFFERS]

/-- Witness of C8: the probe times out (code -7) against a table of two
rows with payloads of 2 and 3 bytes. -/
theorem open_uploads_firmware_iff_probe_fails_witness :
    slogic_open demo_firmware ⟨true, -7⟩
      = (none,
         [UsbCall.libusb_init, UsbCall.libusb_set_debug 3,
          UsbCall.open_device 0x0925 0x3881,
          UsbCall.libusb_bulk_transfer 0x01 [0x05] 1 100,
          UsbCall.libusb_control_transfer 0x40 0xA0 0x10 0 0 2 4,
          UsbCall.libusb_control_transfer 0x40 0xA0 0x20 1 2 3 4,
          UsbCall.sleep 1, UsbCall.libusb_close, UsbCall.libusb_exit]) :=
  (open_uploads_firmware_iff_probe_fails demo_firmware (-7) (by decide) (by decide)
    (by decide) (by decide)).1 (by decide)

/-! ## Return paths of the capture -/

/-- Claim C6 at its failing inputs. With pool depth 2: when the initial
submission of slot 1 fails with code -1, `slogic_read_samples` returns -1
after four calls, none of them a cancel or a free, and the request of slot
0 is still with the transport; when the command write fails with code -7
it returns -7 and the requests of both slots are still with the transport. -/
theorem early_return_leaves_requests_outstanding :
    (slogic_read_samples ⟨4096, 2⟩ ⟨1, "24MHz", 24000000⟩ [0, 0, 0, 0] 4 0 0
        { alloc_ok := fun _ => true, submit_ret := fun i => if i = 1 then -1 else 0,
          bulk_ret := 0, transferred := 2, events := [] }).map
      (fun run => (run.exit, run.state.outstanding, run.state.calls))
      = some (Exit.returned (-1), [0],
          [UsbCall.libusb_alloc_transfer, UsbCall.libusb_alloc_transfer,
           UsbCall.libusb_submit_transfer 0, UsbCall.libusb_submit_transfer 1]) ∧
    (slogic_read_samples ⟨4096, 2⟩ ⟨1, "24MHz", 24000000⟩ [0, 0, 0, 0] 4 0 0
        { alloc_ok := fun _ => true, submit_ret := fun _ => 0,
          bulk_ret := -7, transferred := 0, events := [] }).map
      (fun run => (run.exit, run.state.outstanding, run.state.calls))
      = some (Exit.returned (-7), [1, 0],
          [UsbCall.libusb_alloc_transfer, UsbCall.libusb_alloc_transfer,
           UsbCall.libusb_submit_transfer 0, UsbCall.libusb_submit_transfer 1,
           UsbCall.libusb_bulk_transfer 0x01 [0x01, 1] 2 100]) := by
  decide

/-- Claim C7 at its failing input. With pool depth 1, when the first
`libusb_handle_events` returns the error code -1 the capture stops at once
(one event call, then cancel and free) and `slogic_read_samples` returns
0, not -1. -/
theorem event_loop_error_returns_zero :
    (slogic_read_samples ⟨4096, 1⟩ ⟨1, "24MHz", 24000000⟩ [0, 0, 0, 0] 4 0 0
        (ok_env [([], -1)])).map
      (fun run => (run.exit, run.state.outstanding, run.state.calls))
      = some (Exit.returned 0, [],
          [UsbCall.libusb_alloc_transfer, UsbCall.libusb_submit_transfer 0,
           UsbCall.libusb_bulk_transfer 0x01 [0x01, 1] 2 100,
           UsbCall.libusb_handle_events,
           UsbCall.libusb_cancel_transfer 0, UsbCall.libusb_free_transfer 0]) := by
  decide

end Slogic
